import Mathlib

/-!
Shallow embedding of the MovementAnalysis repository (cell-tower movement
trajectory analysis).  Timestamps (`tm` values run through `mktime` /
`getTimeValue`) are modelled as integers counting seconds; a `TIMEPAIR` is a
pair of such timestamps.  Functions that abort the process (`exit(0)`) or
index out of bounds are modelled as returning `none`.
-/

namespace Movement

/-- Model of `TIMEPAIR` from `src/general_functions.h`: a pair
`(first, second)` of timestamps measured in seconds. -/
abbrev TimeSeg := Int × Int

/-- Body of the output step inside `merge`'s loop (`src/general_functions.h`
lines 48-53), acting on the accumulator `merged` kept in reversed order
(head = `merged.back()`): if `merged` is empty or `merged.back().second <
p.first`, push `p`; else if `merged.back().second < p.second`, extend
`merged.back().second` to `p.second`; else drop `p`. -/
def pushSeg (acc : List TimeSeg) (p : TimeSeg) : List TimeSeg :=
  match acc with
  | [] => [p]
  | q :: rest =>
    if q.2 < p.1 then p :: q :: rest
    else if q.2 < p.2 then (q.1, p.2) :: rest
    else q :: rest

/-- The `while (idx1 <= v1.size() && idx2 <= v2.size())` loop of `merge`,
acting on the unconsumed suffixes of `v1` and `v2`.  When both suffixes are
nonempty, the element with the strictly smaller start is consumed from `v1`
(ties go to `v2`).  When exactly one suffix is empty, the source bumps that
index past the size, consumes one element of the other list through the
output step, exits the loop (the bumped index fails `idx <= size`), and
appends the rest of the other list unmodified.  When both suffixes are
empty the source calls `v2.at(idx2)` out of range (`std::out_of_range`):
modelled as `none`. -/
def mergeAux : List TimeSeg → List TimeSeg → List TimeSeg → Option (List TimeSeg)
  | [], [], _ => none
  | [], p :: r2, acc => some ((pushSeg acc p).reverse ++ r2)
  | p :: r1, [], acc => some ((pushSeg acc p).reverse ++ r1)
  | p1 :: r1, p2 :: r2, acc =>
    if p1.1 < p2.1 then mergeAux r1 (p2 :: r2) (pushSeg acc p1)
    else mergeAux (p1 :: r1) r2 (pushSeg acc p2)
termination_by l1 l2 _ => l1.length + l2.length

/-- Model of `merge(v1, v2)` from `src/general_functions.h` lines 23-60. -/
def merge (v1 v2 : List TimeSeg) : Option (List TimeSeg) :=
  mergeAux v1 v2 []

/-- Adjacent separation of two intervals: the first ends strictly before the
second starts (neither overlapping nor touching).  This is the relation the
spec's TimeInterval invariant demands pairwise. -/
def segSep (p q : TimeSeg) : Prop := p.2 < q.1

instance : DecidableRel segSep := fun p q => inferInstanceAs (Decidable (p.2 < q.1))

/-- The spec's invariant on an interval list: every interval has
start ≤ end, and no two intervals overlap or touch (pairwise separation,
which also makes the list sorted ascending by start). -/
def SepSorted (l : List TimeSeg) : Prop :=
  (∀ p ∈ l, p.1 ≤ p.2) ∧ List.Pairwise segSep l

instance (l : List TimeSeg) : Decidable (SepSorted l) := by
  unfold SepSorted; infer_instance

/-- Loop of `Cell::getTimeSegments` (`src/cell.h` lines 46-57) for a
nonnegative interval, carrying `start = rowList_[low]` and
`prev = rowList_[high]` (with `high = i - 1` at the test and `high = i`
after it): an event `x` extends the current segment iff
`x - start ≤ interval` (the test `isWithinInterval(low, i, interval)`);
otherwise the segment `(start, prev)` is emitted and a new one opens at
`x`.  After the loop the pending segment `(start, prev)` is emitted. -/
def segAux (interval : Int) : Int → Int → List Int → List TimeSeg
  | start, prev, [] => [(start, prev)]
  | start, prev, x :: xs =>
    if x - start ≤ interval then segAux interval start x xs
    else (start, prev) :: segAux interval x x xs

/-- Model of `Cell::getTimeSegments(interval)` (`src/cell.h` lines 42-63) on
the cell's timestamp list.  `none` models the `exit(0)` that
`isWithinInterval` performs on a negative interval, and the out-of-bounds
read `rowList_[0]` on an empty cell. -/
def getTimeSegments (rows : List Int) (interval : Int) : Option (List TimeSeg) :=
  match rows with
  | [] => none
  | x :: xs => if interval < 0 then none else some (segAux interval x x xs)

/-- Modelled from the spec (section 4.1 IntervalSegmenter), as the reference
for the segmentation algorithm: the first interval starts at the first
event, keeps exactly the following events whose timestamp is within
`interval` of that start (maximum-window semantics), closes at the last
kept event, and the rest of the events are segmented the same way. -/
def specSegment (interval : Int) (x : Int) (xs : List Int) : List TimeSeg :=
  let kept := xs.takeWhile (fun t => decide (t - x ≤ interval))
  let endp := (x :: kept).getLast (List.cons_ne_nil x kept)
  match h : xs.dropWhile (fun t => decide (t - x ≤ interval)) with
  | [] => [(x, endp)]
  | y :: ys => (x, endp) :: specSegment interval y ys
termination_by xs.length
decreasing_by
  have h1 : (xs.dropWhile (fun t => decide (t - x ≤ interval))).length ≤ xs.length :=
    (List.dropWhile_sublist _).length_le
  rw [h] at h1
  simp at h1
  omega

/-- Number of produced segments whose closed range `[start, end]` contains
the timestamp `t`. -/
def countSegs (segs : List TimeSeg) (t : Int) : Nat :=
  segs.countP (fun p => decide (p.1 ≤ t ∧ t ≤ p.2))

/-- Model of the `Cell` data structure of `src/cell.h`, keeping only the
timestamps of its `rowList_` (its tag and the rows' coordinates play no
role in the segmentation claims). -/
structure Cell where
  rows : List Int
deriving DecidableEq, Repr

/-- The constructor `Cell(DataRow r, std::string tag)` (`src/cell.h` lines
15-18): `rowList_.push_back(r)`. -/
def mkCell (r : Int) : Cell := ⟨[r]⟩

/-- `Cell::addDataRow(DataRow d)` (`src/cell.h` line 20):
`rowList_.push_back(d)`. -/
def addDataRow (c : Cell) (d : Int) : Cell := ⟨c.rows ++ [d]⟩

/-- Ordering used by the activity ranking: `compareBySecondValue`
(`src/user.h` lines 21-25) makes `cellQueue_` a max-heap on the event
count, so earlier-popped cells have a count at least as large.  `countGE a
b` says `a` is popped no later than `b`: `b.second ≤ a.second`. -/
def countGE (a b : String × Int) : Prop := b.2 ≤ a.2

instance : DecidableRel countGE := fun a b => inferInstanceAs (Decidable (b.2 ≤ a.2))

instance : IsTotal (String × Int) countGE :=
  ⟨fun a b => (le_total b.2 a.2).elim Or.inl Or.inr⟩

instance : IsTrans (String × Int) countGE :=
  ⟨fun _ _ _ h1 h2 => le_trans h2 h1⟩

/-- Pop order of `cellQueue_` (a `std::priority_queue` over
`compareBySecondValue`, filled in `User::readFile`, `src/user.h` lines
84-87): cells come out in descending order of event count.  The heap's
order among equal counts is unspecified, so the pop order is modelled as a
sort by descending count (a consistent total order, as the spec allows). -/
def popOrder (cells : List (String × Int)) : List (String × Int) :=
  List.insertionSort countGE cells

/-- State threaded through the while loop of
`User::findResidentialAreaByTopKCells` (`src/user.h` lines 102-137):
`areaMap` binds a cell tag to its area id, `areaID` is the next fresh id,
`areaList` holds each discovered area's merged segment list (index `i`
holds area `i + 1`). -/
structure DiscState where
  areaMap : List (String × Nat)
  areaID : Nat
  areaList : List (List TimeSeg)
deriving DecidableEq, Repr

/-- `areaMap[cellTag] = id` (`std::unordered_map` assignment), modelled as
an association-list update whose lookup sees the newest binding. -/
def mapInsert (m : List (String × Nat)) (k : String) (v : Nat) : List (String × Nat) :=
  (k, v) :: m

/-- The `for (int i = 0; i < areaList.size(); i++)` loop of
`User::findResidentialAreaByTopKCells` (`src/user.h` lines 120-128):
returns `some (some (i, areaList'))` when area `i` (0-based) is the first
whose merge with `currSegs` has fewer segments than the two inputs
combined, `areaList'` replacing that area by the merged list; `some none`
when no area accepts; `none` when a `merge` call aborts (both inputs
empty, which the program never produces). -/
def tryMergeAreas (currSegs : List TimeSeg) :
    List (List TimeSeg) → Option (Option (Nat × List (List TimeSeg)))
  | [] => some none
  | a :: rest =>
    match merge currSegs a with
    | none => none
    | some m =>
      if m.length < currSegs.length + a.length then some (some (0, m :: rest))
      else
        match tryMergeAreas currSegs rest with
        | none => none
        | some none => some none
        | some (some (i, rest')) => some (some (i + 1, a :: rest'))

/-- The `while (!cellQueue_.empty())` loop of
`User::findResidentialAreaByTopKCells` (`src/user.h` lines 106-137).
`cells` lists the queue's pop order, each cell paired with its sorted
timestamp list; the popped count `num = numConnections()` is the length of
that list.  Per iteration the source computes the cell's time segments,
breaks (keeping the current state, leaving the rest unprocessed) when
`num < 3600 / interval`, then, when `stayTime = segments * interval`
exceeds 3600 s, either folds the cell into the first accepting area or
creates a new area with the next sequential id; otherwise the cell is
skipped unchanged. -/
def discoverLoop (interval : Int) :
    List (String × List Int) → DiscState → Option DiscState
  | [], st => some st
  | (tag, rows) :: rest, st =>
    match getTimeSegments rows interval with
    | none => none
    | some currSegs =>
      if (rows.length : Int) < 3600 / interval then some st
      else if 3600 < (currSegs.length : Int) * interval then
        match tryMergeAreas currSegs st.areaList with
        | none => none
        | some (some (i, areas')) =>
          discoverLoop interval rest
            ⟨mapInsert st.areaMap tag (i + 1), st.areaID, areas'⟩
        | some none =>
          discoverLoop interval rest
            ⟨mapInsert st.areaMap tag st.areaID, st.areaID + 1,
              st.areaList ++ [currSegs]⟩
      else discoverLoop interval rest st

/-- Initial discovery state: no bindings, `int areaID = 1`, no areas. -/
def initState : DiscState := ⟨[], 1, []⟩

/-- `User::findResidentialAreaByTopKCells(interval)` restricted to its
area-discovery loop (the subsequent CSV/GeoJSON output is a one-way sink). -/
def findResidentialAreaByTopKCells (interval : Int)
    (cells : List (String × List Int)) : Option DiscState :=
  discoverLoop interval cells initState

/-- An existing area accepts the cell's segments when merging loses
segments: the test `mergedSegList.size() < currSegList.size() +
areaList[i].size()` of `src/user.h` line 123. -/
def accepts (currSegs a : List TimeSeg) : Prop :=
  ∃ m, merge currSegs a = some m ∧ m.length < currSegs.length + a.length

/-- The `for (int i = 1; i < rowList_.size(); i++)` scan of
`User::findResidentialAreaBySpeed` (`src/user.h` lines 169-193) over the
timestamps `ts`, with the movement decision (`currShift == 0 || timeDiff
== 0` continues; `speed > movingSpeed` splits) abstracted into the
predicate `p` on the loop index.  Every element read `rowList_[k]` is
modelled by `ts[k]?`, `none` signalling an out-of-bounds read.  A negative
time difference makes the source `exit(0)`: no further reads happen, and
the result flag `true` records the early process exit. -/
def speedLoop (p : Nat → Bool) (ts : List Int) :
    Nat → Nat → Nat → List (Nat × Nat) → Option (Bool × Nat × Nat × List (Nat × Nat))
  | i, low, high, segs =>
    if hi : i < ts.length then
      match ts[i - 1]?, ts[i]? with
      | some tprev, some tcur =>
        if tcur - tprev < 0 then some (true, low, i, segs)
        else if p i then
          match ts[i - 1]?, ts[low]? with
          | some th, some tl =>
            let segs' := if 600 < th - tl then segs ++ [(low, i)] else segs
            speedLoop p ts (i + 1) i i segs'
          | _, _ => none
        else speedLoop p ts (i + 1) low i segs
      | _, _ => none
    else some (false, low, high, segs)
termination_by i => ts.length - i
decreasing_by all_goals omega

/-- Model of `User::findResidentialAreaBySpeed` (`src/user.h` lines
165-204): the scan loop followed by the trailing-segment step `high++`,
which reads `rowList_[high - 1]` and `rowList_[low]` and emits the final
window when it lasted longer than `minInterval = 600` s.  The result is
the list of `(low, high)` windows handed to `createJsonFile` (which reads
indices `low` to `high - 1`); `none` means some read was out of bounds. -/
def findResidentialAreaBySpeed (p : Nat → Bool) (ts : List Int) :
    Option (List (Nat × Nat)) :=
  match speedLoop p ts 1 0 0 [] with
  | none => none
  | some (true, _, _, segs) => some segs
  | some (false, low, high, segs) =>
    match ts[high + 1 - 1]?, ts[low]? with
    | some th, some tl =>
      if 600 < th - tl then some (segs ++ [(low, high + 1)]) else some segs
    | _, _ => none


theorem merge_cons_nil (p : TimeSeg) (r : List TimeSeg) :
    merge (p :: r) [] = some (p :: r) := by
  simp [merge, mergeAux, pushSeg]

theorem mergeSelf_aux : ∀ (r : List TimeSeg) (p : TimeSeg) (acc : List TimeSeg),
    p.1 ≤ p.2 → (∀ q ∈ r, q.1 ≤ q.2) → List.Chain' segSep (p :: r) →
    mergeAux (p :: r) r (p :: acc) = some ((p :: acc).reverse ++ r)
  | [], p, acc, h1, _, _ => by
    simp [mergeAux, pushSeg, not_lt.mpr h1]
  | y :: r', p, acc, h1, h2, h3 => by
    have hpy : segSep p y := (List.chain'_cons.mp h3).1
    have hpy1 : p.1 < y.1 := lt_of_le_of_lt h1 hpy
    have step1 : mergeAux (p :: y :: r') (y :: r') (p :: acc) =
        mergeAux (y :: r') (y :: r') (p :: acc) := by
      rw [mergeAux]
      simp [hpy1, pushSeg, not_lt.mpr h1]
    have step2 : mergeAux (y :: r') (y :: r') (p :: acc) =
        mergeAux (y :: r') r' (y :: p :: acc) := by
      rw [mergeAux]
      simp [pushSeg, segSep] at hpy ⊢
      simp [hpy]
    have step3 := mergeSelf_aux r' y (p :: acc) (h2 y (by simp))
      (fun q hq => h2 q (by simp [hq])) (List.chain'_cons.mp h3).2
    rw [step1, step2, step3]
    simp

theorem merge_self (x : List TimeSeg) (hne : x ≠ []) (hw : SepSorted x) :
    merge x x = some x := by
  obtain ⟨p, r, rfl⟩ := List.exists_cons_of_ne_nil hne
  have h1 : p.1 ≤ p.2 := hw.1 p (by simp)
  have hstep : merge (p :: r) (p :: r) = mergeAux (p :: r) r [p] := by
    rw [merge, mergeAux]
    simp [pushSeg]
  rw [hstep, mergeSelf_aux r p [] h1 (fun q hq => hw.1 q (by simp [hq])) hw.2.chain']
  simp


/-- C7 counterexample: `merge([], [])` aborts (out-of-range `.at(0)`), so
`merge(x, []) = x` fails at `x = []`; and on the sorted, pairwise-separated
inputs `[[0,1]]` and `[[0,0],[1,1]]` the two argument orders of `merge`
return different interval sets (`[(1,1)]` is in one result and not the
other), so merge is not commutative in the resulting set. -/
theorem C7_merge_laws_cex :
    merge ([] : List TimeSeg) [] = none
    ∧ SepSorted [((0:Int), 1)] ∧ SepSorted [((0:Int), 0), (1, 1)]
    ∧ merge [((0:Int), 1)] [((0:Int), 0), (1, 1)] = some [((0:Int), 1)]
    ∧ merge [((0:Int), 0), (1, 1)] [((0:Int), 1)] = some [((0:Int), 1), (1, 1)] := by
  refine ⟨by simp [merge, mergeAux], by decide, by decide, ?_, ?_⟩
  · simp [merge, mergeAux, pushSeg]
  · simp [merge, mergeAux, pushSeg]

/-- C7 (amended): for every nonempty interval list `x`, `merge(x, []) = x`,
and for every nonempty sorted, pairwise non-overlapping, non-touching `x`,
`merge(x, x) = x`.  (On two empty lists `merge` aborts, and the resulting
interval set is not symmetric in the argument order.) -/
theorem C7_merge_laws (x : List TimeSeg) (hne : x ≠ []) (hw : SepSorted x) :
    merge x [] = some x ∧ merge x x = some x := by
  obtain ⟨p, r, rfl⟩ := List.exists_cons_of_ne_nil hne
  exact ⟨merge_cons_nil p r, merge_self _ (by simp) hw⟩

/-- Witness for C7 at `x = [(0, 5)]`. -/
theorem C7_merge_laws_witness :
    merge [((0:Int), 5)] [] = some [((0:Int), 5)]
    ∧ merge [((0:Int), 5)] [((0:Int), 5)] = some [((0:Int), 5)] :=
  C7_merge_laws [((0:Int), 5)] (by decide) (by decide)

/-- C6: `[10,20]` and `[20,30]` (touching) merge into `[10,30]`; `[10,19]`
and `[20,30]` (a gap of one second) stay separate; and in general the
output step appends the considered interval as a new output interval
exactly when the last output interval's end is strictly below the new
interval's start, otherwise coalescing by extending the end to the maximum
of the two ends. -/
theorem C6_merge_touching :
    merge [((10:Int), 20)] [((20:Int), 30)] = some [((10:Int), 30)]
    ∧ merge [((10:Int), 19)] [((20:Int), 30)] = some [((10:Int), 19), (20, 30)]
    ∧ ∀ (q p : TimeSeg) (rest : List TimeSeg),
        (pushSeg (q :: rest) p = p :: q :: rest ↔ q.2 < p.1)
        ∧ (¬ q.2 < p.1 → pushSeg (q :: rest) p = (q.1, max q.2 p.2) :: rest) := by
  refine ⟨by simp [merge, mergeAux, pushSeg], by simp [merge, mergeAux, pushSeg], ?_⟩
  intro q p rest
  constructor
  · constructor
    · intro he
      by_contra hlt
      rw [pushSeg, if_neg hlt] at he
      by_cases h2 : q.2 < p.2
      · rw [if_pos h2] at he
        have := congrArg List.length he
        simp at this
      · rw [if_neg h2] at he
        have := congrArg List.length he
        simp at this
    · intro hlt
      rw [pushSeg, if_pos hlt]
  · intro hlt
    rw [pushSeg, if_neg hlt]
    by_cases h2 : q.2 < p.2
    · rw [if_pos h2, max_eq_right (le_of_lt h2)]
    · rw [if_neg h2, max_eq_left (not_lt.mp h2)]

/-- C1: on the sorted, pairwise-separated inputs `[[0,100]]` and
`[[1,2],[3,4],[5,6]]`, `merge` exhausts the first list, coalesces only one
interval of the second, and appends the remaining tail unmodified, so its
output `[[0,100],[3,4],[5,6]]` contains overlapping intervals — the
claimed output invariant fails on the code. -/
theorem C1_merge_tail_overlap :
    SepSorted [((0:Int), 100)] ∧ SepSorted [((1:Int), 2), (3, 4), (5, 6)]
    ∧ merge [((0:Int), 100)] [((1:Int), 2), (3, 4), (5, 6)]
        = some [((0:Int), 100), (3, 4), (5, 6)]
    ∧ ¬ List.Pairwise segSep [((0:Int), 100), (3, 4), (5, 6)] := by
  refine ⟨by decide, by decide, ?_, by decide⟩
  simp [merge, mergeAux, pushSeg]


theorem chain_le_head (x : Int) (xs : List Int)
    (h : List.Chain' (· ≤ ·) (x :: xs)) : ∀ t ∈ xs, x ≤ t :=
  (List.pairwise_cons.mp (List.chain'_iff_pairwise.mp h)).1

theorem chain'_sep_pairwise : ∀ (l : List TimeSeg), List.Chain' segSep l →
    (∀ p ∈ l, p.1 ≤ p.2) → List.Pairwise segSep l
  | [], _, _ => List.Pairwise.nil
  | [_], _, _ => by simp
  | a :: b :: l, hch, hall => by
    have hab : segSep a b := (List.chain'_cons.mp hch).1
    have htail : List.Pairwise segSep (b :: l) :=
      chain'_sep_pairwise (b :: l) (List.chain'_cons.mp hch).2
        (fun p hp => hall p (by simp [hp]))
    refine List.pairwise_cons.mpr ⟨?_, htail⟩
    intro c hc
    rcases List.mem_cons.mp hc with rfl | hc
    · exact hab
    · have hbc : segSep b c := (List.pairwise_cons.mp htail).1 c hc
      have hb := hall b (by simp)
      exact lt_trans (lt_of_lt_of_le hab hb) hbc

theorem segAux_inv (interval : Int) (hint : 0 ≤ interval) :
    ∀ (xs : List Int) (start prev : Int), start ≤ prev → prev - start ≤ interval →
    List.Chain' (· ≤ ·) (prev :: xs) →
    (∀ p ∈ segAux interval start prev xs, start ≤ p.1 ∧ p.1 ≤ p.2)
    ∧ List.Chain' segSep (segAux interval start prev xs)
    ∧ (∃ e, (segAux interval start prev xs).head? = some (start, e))
    ∧ (∀ t : Int, start ≤ t → t ≤ prev → countSegs (segAux interval start prev xs) t = 1)
    ∧ (∀ t ∈ xs, countSegs (segAux interval start prev xs) t = 1)
  | [], start, prev, h1, _, _ => by
    refine ⟨?_, ?_, ?_, ?_, ?_⟩
    · intro p hp
      simp [segAux] at hp
      subst hp
      exact ⟨le_refl _, h1⟩
    · simp [segAux]
    · exact ⟨prev, by simp [segAux]⟩
    · intro t ht1 ht2
      simp [segAux, countSegs, List.countP_cons, ht1, ht2]
    · intro t ht
      simp at ht
  | x :: xs, start, prev, h1, h2, h3 => by
    have hpx : prev ≤ x := (List.chain'_cons.mp h3).1
    have hchain : List.Chain' (· ≤ ·) (x :: xs) := (List.chain'_cons.mp h3).2
    by_cases hc : x - start ≤ interval
    · have IH := segAux_inv interval hint xs start x (le_trans h1 hpx) hc hchain
      rw [segAux, if_pos hc]
      refine ⟨IH.1, IH.2.1, IH.2.2.1, ?_, ?_⟩
      · intro t ht1 ht2
        exact IH.2.2.2.1 t ht1 (le_trans ht2 hpx)
      · intro t ht
        rcases List.mem_cons.mp ht with rfl | ht
        · exact IH.2.2.2.1 t (le_trans h1 hpx) le_rfl
        · exact IH.2.2.2.2 t ht
    · have hlt : prev < x := by omega
      have IH := segAux_inv interval hint xs x x le_rfl (by omega) hchain
      rw [segAux, if_neg hc]
      obtain ⟨hall, hch, ⟨e, hhead⟩, hcov, hlist⟩ := IH
      have hzero : ∀ t : Int, t ≤ prev →
          List.countP (fun p => decide (p.1 ≤ t ∧ t ≤ p.2)) (segAux interval x x xs) = 0 := by
        intro t ht
        rw [List.countP_eq_zero]
        intro a ha
        have hax := (hall a ha).1
        simp only [decide_eq_true_eq]
        omega
      refine ⟨?_, ?_, ?_, ?_, ?_⟩
      · intro p hp
        rcases List.mem_cons.mp hp with rfl | hp
        · exact ⟨le_refl _, h1⟩
        · have := (hall p hp).1
          exact ⟨by omega, (hall p hp).2⟩
      · rw [List.chain'_cons']
        refine ⟨?_, hch⟩
        intro b hb
        rw [hhead] at hb
        simp at hb
        subst hb
        exact hlt
      · exact ⟨prev, rfl⟩
      · intro t ht1 ht2
        rw [countSegs, List.countP_cons, hzero t ht2]
        have hcond : start ≤ t ∧ t ≤ prev := ⟨ht1, ht2⟩
        simp [hcond]
      · intro t ht
        rcases List.mem_cons.mp ht with heq | ht
        · subst heq
          have hcx := hcov t le_rfl le_rfl
          rw [countSegs] at hcx
          rw [countSegs, List.countP_cons, hcx]
          have hnot : ¬ (start ≤ t ∧ t ≤ prev) := by omega
          simp [hnot]
        · have hxt : x ≤ t := chain_le_head x xs hchain t ht
          have hlt' := hlist t ht
          rw [countSegs] at hlt'
          rw [countSegs, List.countP_cons, hlt']
          have hnot : ¬ (start ≤ t ∧ t ≤ prev) := by omega
          simp [hnot]

/-- C2: on a nonempty, ascending event list and a nonnegative gap
threshold, `Cell::getTimeSegments` returns a segment list that is sorted
ascending by start, in which every segment's end is at least its start,
and in which every input timestamp lies (between start and end inclusive)
in exactly one segment. -/
theorem C2_getTimeSegments_partition (rows : List Int) (interval : Int)
    (hne : rows ≠ []) (hsorted : List.Chain' (· ≤ ·) rows) (hint : 0 ≤ interval) :
    ∃ segs, getTimeSegments rows interval = some segs
      ∧ List.Pairwise (fun p q : TimeSeg => p.1 < q.1) segs
      ∧ (∀ p ∈ segs, p.1 ≤ p.2)
      ∧ (∀ t ∈ rows, countSegs segs t = 1) := by
  obtain ⟨x, xs, rfl⟩ := List.exists_cons_of_ne_nil hne
  have hinv := segAux_inv interval hint xs x x le_rfl (by omega) hsorted
  obtain ⟨hall, hch, _, hcov, hlist⟩ := hinv
  refine ⟨segAux interval x x xs, ?_, ?_, fun p hp => (hall p hp).2, ?_⟩
  · rw [getTimeSegments, if_neg (not_lt.mpr hint)]
  · have hpair : List.Pairwise segSep (segAux interval x x xs) :=
      chain'_sep_pairwise _ hch (fun p hp => (hall p hp).2)
    refine hpair.imp_of_mem ?_
    intro p q hp _ hpq
    exact lt_of_le_of_lt (hall p hp).2 hpq
  · intro t ht
    rcases List.mem_cons.mp ht with rfl | ht
    · exact hcov t le_rfl le_rfl
    · exact hlist t ht

/-- Witness for C2 at `rows = [0, 40, 300]`, `interval = 180`. -/
theorem C2_getTimeSegments_partition_witness :
    ∃ segs, getTimeSegments [0, 40, 300] 180 = some segs
      ∧ List.Pairwise (fun p q : TimeSeg => p.1 < q.1) segs
      ∧ (∀ p ∈ segs, p.1 ≤ p.2)
      ∧ (∀ t ∈ [(0:Int), 40, 300], countSegs segs t = 1) :=
  C2_getTimeSegments_partition [0, 40, 300] 180 (by decide) (by simp [List.chain'_cons, List.chain'_singleton]) (by decide)


theorem segAux_all_within (interval : Int) :
    ∀ (xs : List Int) (start prev : Int),
    xs.dropWhile (fun t => decide (t - start ≤ interval)) = [] →
    segAux interval start prev xs =
      [(start, (prev :: xs.takeWhile (fun t => decide (t - start ≤ interval))).getLast
        (List.cons_ne_nil _ _))]
  | [], start, prev, _ => by simp [segAux]
  | x :: xs, start, prev, hdrop => by
    rw [List.dropWhile_cons] at hdrop
    by_cases hx : x - start ≤ interval
    · rw [if_pos (by simpa using hx)] at hdrop
      rw [segAux, if_pos hx, segAux_all_within interval xs start x hdrop,
        List.takeWhile_cons, if_pos (by simpa using hx)]
      simp [List.getLast_cons]
    · rw [if_neg (by simpa using hx)] at hdrop
      exact absurd hdrop (by simp)

theorem segAux_split (interval : Int) :
    ∀ (xs : List Int) (start prev y : Int) (ys : List Int),
    xs.dropWhile (fun t => decide (t - start ≤ interval)) = y :: ys →
    segAux interval start prev xs =
      (start, (prev :: xs.takeWhile (fun t => decide (t - start ≤ interval))).getLast
        (List.cons_ne_nil _ _)) :: segAux interval y y ys
  | [], start, prev, y, ys, hdrop => by simp at hdrop
  | x :: xs, start, prev, y, ys, hdrop => by
    rw [List.dropWhile_cons] at hdrop
    by_cases hx : x - start ≤ interval
    · rw [if_pos (by simpa using hx)] at hdrop
      rw [segAux, if_pos hx, segAux_split interval xs start x y ys hdrop,
        List.takeWhile_cons, if_pos (by simpa using hx)]
      simp [List.getLast_cons]
    · rw [if_neg (by simpa using hx)] at hdrop
      obtain ⟨rfl, rfl⟩ : x = y ∧ xs = ys := by
        constructor <;> [exact (List.cons.injEq .. ▸ hdrop).1; exact (List.cons.injEq .. ▸ hdrop).2]
      rw [segAux, if_neg hx, List.takeWhile_cons, if_neg (by simpa using hx)]
      rfl

theorem specSegment_drop_nil (interval x : Int) (xs : List Int)
    (hdrop : xs.dropWhile (fun t => decide (t - x ≤ interval)) = []) :
    specSegment interval x xs =
      [(x, (x :: xs.takeWhile (fun t => decide (t - x ≤ interval))).getLast
        (List.cons_ne_nil _ _))] := by
  rw [specSegment.eq_def]
  split
  · rfl
  · next y ys heq => rw [hdrop] at heq; exact absurd heq (by simp)

theorem specSegment_drop_cons (interval x : Int) (xs : List Int) (y : Int) (ys : List Int)
    (hdrop : xs.dropWhile (fun t => decide (t - x ≤ interval)) = y :: ys) :
    specSegment interval x xs =
      (x, (x :: xs.takeWhile (fun t => decide (t - x ≤ interval))).getLast
        (List.cons_ne_nil _ _)) :: specSegment interval y ys := by
  rw [specSegment.eq_def]
  split
  · next heq => rw [hdrop] at heq; exact absurd heq (by simp)
  · next y' ys' heq =>
    rw [hdrop] at heq
    obtain ⟨rfl, rfl⟩ : y' = y ∧ ys' = ys := by
      constructor <;> [exact (List.cons.injEq .. ▸ heq).1.symm; exact (List.cons.injEq .. ▸ heq).2.symm]
    rfl

theorem segAux_eq_specSegment (interval : Int) :
    ∀ (n : Nat) (xs : List Int), xs.length ≤ n → ∀ x : Int,
    segAux interval x x xs = specSegment interval x xs := by
  intro n
  induction n with
  | zero =>
    intro xs hlen x
    have : xs = [] := List.length_eq_zero.mp (Nat.le_zero.mp hlen)
    subst this
    rw [segAux_all_within interval [] x x (by simp), specSegment_drop_nil interval x [] (by simp)]
  | succ n IH =>
    intro xs hlen x
    cases hdrop : xs.dropWhile (fun t => decide (t - x ≤ interval)) with
    | nil => rw [segAux_all_within interval xs x x hdrop, specSegment_drop_nil interval x xs hdrop]
    | cons y ys =>
      have hys : ys.length ≤ n := by
        have h1 : (xs.dropWhile (fun t => decide (t - x ≤ interval))).length ≤ xs.length :=
          (List.dropWhile_sublist _).length_le
        rw [hdrop] at h1
        simp at h1
        omega
      rw [segAux_split interval xs x x y ys hdrop, specSegment_drop_cons interval x xs y ys hdrop,
        IH ys hys y]

/-- C3: on a nonempty, ascending event list and a nonnegative gap
threshold, `Cell::getTimeSegments` computes exactly the spec's
segmentation: the interval opened at the first event `x` keeps the
following events `t` exactly while `t - x ≤ interval` (measured from the
interval's start), closes at the last such event, and the next interval
opens at the first event that fails the test (`specSegment`); a
single-event input yields exactly one interval with start = end. -/
theorem C3_segmentation_rule (interval : Int) (x : Int) (xs : List Int)
    (hsorted : List.Chain' (· ≤ ·) (x :: xs)) (hint : 0 ≤ interval) :
    getTimeSegments (x :: xs) interval = some (specSegment interval x xs)
    ∧ getTimeSegments [x] interval = some [(x, x)] := by
  constructor
  · rw [getTimeSegments, if_neg (not_lt.mpr hint)]
    exact congrArg some (segAux_eq_specSegment interval xs.length xs le_rfl x)
  · rw [getTimeSegments, if_neg (not_lt.mpr hint)]
    rfl

/-- Witness for C3 at `rows = [0, 40, 300]`, `interval = 180`. -/
theorem C3_segmentation_rule_witness :
    getTimeSegments [0, 40, 300] 180 = some (specSegment 180 0 [40, 300])
    ∧ getTimeSegments [(0:Int)] 180 = some [((0:Int), 0)] :=
  C3_segmentation_rule 180 0 [40, 300]
    (by simp [List.chain'_cons, List.chain'_singleton]) (by decide)


theorem foldl_addDataRow_rows : ∀ (ds : List Int) (c : Cell),
    (ds.foldl addDataRow c).rows = c.rows ++ ds
  | [], c => by simp
  | d :: ds, c => by
    rw [List.foldl_cons, foldl_addDataRow_rows ds (addDataRow c d)]
    simp [addDataRow]

/-- C9: a `Cell` built by the constructor and any number of `addDataRow`
calls holds the constructor's row plus the added rows, hence is never
empty, and `Cell::getTimeSegments` (whose first action reads
`rowList_[0]` unguarded) never sees an empty row list — also after
`readFile` sorts the rows (any permutation of them). -/
theorem C9_cell_never_empty (r : Int) (ds : List Int) (interval : Int)
    (hint : 0 ≤ interval) :
    (ds.foldl addDataRow (mkCell r)).rows = r :: ds
    ∧ (ds.foldl addDataRow (mkCell r)).rows ≠ []
    ∧ ∀ rows' : List Int, List.Perm rows' (ds.foldl addDataRow (mkCell r)).rows →
        getTimeSegments rows' interval ≠ none := by
  have hrows : (ds.foldl addDataRow (mkCell r)).rows = r :: ds := by
    rw [foldl_addDataRow_rows]
    rfl
  refine ⟨hrows, by rw [hrows]; simp, ?_⟩
  intro rows' hperm
  have hne : rows' ≠ [] := by
    intro hnil
    subst hnil
    rw [hrows] at hperm
    exact absurd hperm.length_eq (by simp)
  obtain ⟨y, ys, rfl⟩ := List.exists_cons_of_ne_nil hne
  rw [getTimeSegments, if_neg (not_lt.mpr hint)]
  simp

/-- Witness for C9 at `r = 5`, `ds = [3]`, `interval = 0`. -/
theorem C9_cell_never_empty_witness :
    (List.foldl addDataRow (mkCell 5) [3]).rows = 5 :: [3]
    ∧ (List.foldl addDataRow (mkCell 5) [3]).rows ≠ []
    ∧ ∀ rows' : List Int, List.Perm rows' (List.foldl addDataRow (mkCell 5) [3]).rows →
        getTimeSegments rows' 0 ≠ none :=
  C9_cell_never_empty 5 [3] 0 (by decide)

theorem speedLoop_total (p : Nat → Bool) (ts : List Int) :
    ∀ (n i low high : Nat) (segs : List (Nat × Nat)), ts.length - i ≤ n →
    low < ts.length → high < ts.length →
    ∃ flag l h s, speedLoop p ts i low high segs = some (flag, l, h, s)
      ∧ (flag = false → l < ts.length ∧ h < ts.length) := by
  intro n
  induction n with
  | zero =>
    intro i low high segs hfuel hlow hhigh
    have hi : ¬ i < ts.length := by omega
    refine ⟨false, low, high, segs, ?_, fun _ => ⟨hlow, hhigh⟩⟩
    rw [speedLoop, dif_neg hi]
  | succ n IH =>
    intro i low high segs hfuel hlow hhigh
    by_cases hi : i < ts.length
    · have hprev : i - 1 < ts.length := by omega
      rw [speedLoop, dif_pos hi, List.getElem?_eq_getElem hprev, List.getElem?_eq_getElem hi]
      by_cases hneg : ts[i] - ts[i - 1] < 0
      · refine ⟨true, low, i, segs, ?_, by simp⟩
        simp [hneg]
      · by_cases hp : p i
        · rw [List.getElem?_eq_getElem hlow]
          obtain ⟨flag, l, h, s, heq, hr⟩ :=
            IH (i + 1) i i (if 600 < ts[i - 1] - ts[low] then segs ++ [(low, i)] else segs)
              (by omega) hi hi
          refine ⟨flag, l, h, s, ?_, hr⟩
          simp [hneg, hp]
          exact heq
        · obtain ⟨flag, l, h, s, heq, hr⟩ := IH (i + 1) low i segs (by omega) hlow hi
          refine ⟨flag, l, h, s, ?_, hr⟩
          simp [hneg, hp]
          exact heq
    · refine ⟨false, low, high, segs, ?_, fun _ => ⟨hlow, hhigh⟩⟩
      rw [speedLoop, dif_neg hi]

/-- C10: `User::findResidentialAreaBySpeed` reads `rowList_[high - 1]`
with `high = 1` after the scan even when the log is empty — an
out-of-bounds read of index 0 — while on every nonempty log (and any
movement decisions) every read stays in range and a segment list is
produced. -/
theorem C10_speed_scan_bounds (p : Nat → Bool) (ts : List Int) (hne : ts ≠ []) :
    findResidentialAreaBySpeed p ([] : List Int) = none
    ∧ ∃ segs, findResidentialAreaBySpeed p ts = some segs := by
  constructor
  · rw [findResidentialAreaBySpeed, speedLoop, dif_neg (by simp)]
    rfl
  · have hlen : 0 < ts.length := List.length_pos.mpr hne
    obtain ⟨flag, l, h, s, heq, hr⟩ :=
      speedLoop_total p ts (ts.length - 1) 1 0 0 [] (by omega) hlen hlen
    rw [findResidentialAreaBySpeed, heq]
    cases flag with
    | true => exact ⟨s, rfl⟩
    | false =>
      obtain ⟨hl, hh⟩ := hr rfl
      have hsimp : h + 1 - 1 = h := by omega
      dsimp only
      rw [hsimp, List.getElem?_eq_getElem hh, List.getElem?_eq_getElem hl]
      by_cases hstay : 600 < ts[h] - ts[l]
      · exact ⟨s ++ [(l, h + 1)], by simp [hstay]⟩
      · exact ⟨s, by simp [hstay]⟩

/-- Witness for C10 at `p` never splitting and `ts = [0, 700]`. -/
theorem C10_speed_scan_bounds_witness :
    findResidentialAreaBySpeed (fun _ => false) ([] : List Int) = none
    ∧ ∃ segs, findResidentialAreaBySpeed (fun _ => false) [0, 700] = some segs :=
  C10_speed_scan_bounds (fun _ => false) [0, 700] (by decide)

/-- C8: the activity ranking pops cells in descending order of event
count (our model fixes the heap's unspecified tie order as a consistent
total order and sorts), the popped sequence being a permutation of the
cells; for counts A:50, B:30, C:80 the pop order is C, A, B. -/
theorem C8_activity_ranking :
    (∀ cells : List (String × Int),
      List.Sorted countGE (popOrder cells) ∧ List.Perm (popOrder cells) cells)
    ∧ popOrder [("A", 50), ("B", 30), ("C", 80)] = [("C", 80), ("A", 50), ("B", 30)] := by
  refine ⟨fun cells =>
    ⟨List.sorted_insertionSort countGE cells, List.perm_insertionSort countGE cells⟩, ?_⟩
  rfl


theorem mergeAux_ne_none : ∀ (n : Nat) (l1 l2 acc : List TimeSeg),
    l1.length + l2.length ≤ n → l1 ≠ [] ∨ l2 ≠ [] → mergeAux l1 l2 acc ≠ none := by
  intro n
  induction n with
  | zero =>
    intro l1 l2 acc hlen hne
    have h1 : l1 = [] := List.length_eq_zero.mp (by omega)
    have h2 : l2 = [] := List.length_eq_zero.mp (by omega)
    subst h1; subst h2
    rcases hne with h | h <;> exact absurd rfl h
  | succ n IH =>
    intro l1 l2 acc hlen hne
    match l1, l2 with
    | [], [] => rcases hne with h | h <;> exact absurd rfl h
    | [], p :: r2 => rw [mergeAux]; simp
    | p :: r1, [] => rw [mergeAux]; simp
    | p1 :: r1, p2 :: r2 =>
      rw [mergeAux]
      by_cases hc : p1.1 < p2.1
      · rw [if_pos hc]
        exact IH r1 (p2 :: r2) _ (by simp at hlen ⊢; omega) (Or.inr (by simp))
      · rw [if_neg hc]
        exact IH (p1 :: r1) r2 _ (by simp at hlen ⊢; omega) (Or.inl (by simp))

theorem merge_isSome (currSegs a : List TimeSeg) (hne : currSegs ≠ []) :
    ∃ m, merge currSegs a = some m := by
  have h := mergeAux_ne_none (currSegs.length + a.length) currSegs a [] le_rfl (Or.inl hne)
  rw [merge]
  cases heq : mergeAux currSegs a [] with
  | none => exact absurd heq h
  | some m => exact ⟨m, rfl⟩

theorem tryMergeAreas_found (currSegs : List TimeSeg) (hne : currSegs ≠ []) :
    ∀ (areas : List (List TimeSeg)) (i : Nat) (hi : i < areas.length) (m : List TimeSeg),
    merge currSegs (areas.get ⟨i, hi⟩) = some m →
    m.length < currSegs.length + (areas.get ⟨i, hi⟩).length →
    (∀ (j : Nat) (hj : j < areas.length), j < i → ¬ accepts currSegs (areas.get ⟨j, hj⟩)) →
    tryMergeAreas currSegs areas = some (some (i, areas.set i m))
  | [], i, hi, _, _, _, _ => absurd hi (by simp)
  | a :: rest, 0, _, m, hm, hlt, _ => by
    rw [tryMergeAreas]
    simp only [List.get] at hm hlt
    rw [hm]
    dsimp only
    rw [if_pos hlt]
    simp
  | a :: rest, i + 1, hi, m, hm, hlt, hprev => by
    have h0 : ¬ accepts currSegs a := hprev 0 (by simp) (by omega)
    obtain ⟨m0, hm0⟩ := merge_isSome currSegs a hne
    have hnot : ¬ (m0.length < currSegs.length + a.length) :=
      fun hcon => h0 ⟨m0, hm0, hcon⟩
    rw [tryMergeAreas, hm0]
    dsimp only
    rw [if_neg hnot]
    simp only [List.get] at hm hlt
    rw [tryMergeAreas_found currSegs hne rest i (by simpa using hi) m hm hlt
      (fun j hj hji => hprev (j + 1) (by simpa using hj) (by omega))]
    simp

theorem tryMergeAreas_no_fit (currSegs : List TimeSeg) (hne : currSegs ≠ []) :
    ∀ (areas : List (List TimeSeg)), (∀ a ∈ areas, ¬ accepts currSegs a) →
    tryMergeAreas currSegs areas = some none
  | [], _ => rfl
  | a :: rest, hall => by
    have h0 : ¬ accepts currSegs a := hall a (by simp)
    obtain ⟨m0, hm0⟩ := merge_isSome currSegs a hne
    have hnot : ¬ (m0.length < currSegs.length + a.length) :=
      fun hcon => h0 ⟨m0, hm0, hcon⟩
    rw [tryMergeAreas, hm0]
    dsimp only
    rw [if_neg hnot,
      tryMergeAreas_no_fit currSegs hne rest (fun b hb => hall b (by simp [hb]))]

/-- C4: the discovery loop of `findResidentialAreaByTopKCells` stops at
once — returning the current state, all remaining cells unprocessed — as
soon as the popped cell's event count is below `3600 / interval`; and for
a popped cell whose stay time `(number of segments) * interval` is at most
3600 s, the cell is assigned to no area and the loop continues with the
rest unchanged. -/
theorem C4_loop_break_and_skip (interval : Int) (tag : String) (rows : List Int)
    (rest : List (String × List Int)) (st : DiscState) (segs : List TimeSeg)
    (hpos : 0 < interval)
    (hsegs : getTimeSegments rows interval = some segs) :
    ((rows.length : Int) < 3600 / interval →
      discoverLoop interval ((tag, rows) :: rest) st = some st)
    ∧ (3600 / interval ≤ (rows.length : Int) → (segs.length : Int) * interval ≤ 3600 →
      discoverLoop interval ((tag, rows) :: rest) st = discoverLoop interval rest st) := by
  constructor
  · intro hnum
    rw [discoverLoop, hsegs]
    dsimp only
    rw [if_pos hnum]
  · intro hnum hstay
    rw [discoverLoop, hsegs]
    dsimp only
    rw [if_neg (not_lt.mpr hnum), if_neg (not_lt.mpr hstay)]

/-- Witness for C4 at `interval = 180` and a one-event cell (count 1 is
below 3600 / 180 = 20, so the loop breaks immediately). -/
theorem C4_loop_break_and_skip_witness :
    discoverLoop 180 [("A", [0])] initState = some initState :=
  (C4_loop_break_and_skip 180 "A" [0] [] initState [((0:Int), 0)]
    (by decide) (by decide)).1 (by decide)

/-- C5: when a popped cell qualifies (count at least `3600 / interval`,
stay time above 3600 s), the existing areas are tried in creation order:
the first index `i` whose merge with the cell's segments loses segments
receives the cell (the tag is bound to area id `i + 1`, area `i`'s
segment list is replaced by the merged list, later areas are not tried);
when no area accepts, the tag is bound to the next sequential id, that id
counter increments, and the cell's segment list is appended as a new
area.  Ids start at 1 (`initState`). -/
theorem C5_first_fit (interval : Int) (tag : String) (rows : List Int)
    (rest : List (String × List Int)) (st : DiscState) (currSegs : List TimeSeg)
    (hpos : 0 < interval)
    (hsegs : getTimeSegments rows interval = some currSegs)
    (hne : currSegs ≠ [])
    (hnum : 3600 / interval ≤ (rows.length : Int))
    (hstay : 3600 < (currSegs.length : Int) * interval) :
    (∀ (i : Nat) (hi : i < st.areaList.length) (m : List TimeSeg),
      merge currSegs (st.areaList.get ⟨i, hi⟩) = some m →
      m.length < currSegs.length + (st.areaList.get ⟨i, hi⟩).length →
      (∀ (j : Nat) (hj : j < st.areaList.length), j < i →
        ¬ accepts currSegs (st.areaList.get ⟨j, hj⟩)) →
      discoverLoop interval ((tag, rows) :: rest) st =
        discoverLoop interval rest
          ⟨mapInsert st.areaMap tag (i + 1), st.areaID, st.areaList.set i m⟩)
    ∧ ((∀ a ∈ st.areaList, ¬ accepts currSegs a) →
      discoverLoop interval ((tag, rows) :: rest) st =
        discoverLoop interval rest
          ⟨mapInsert st.areaMap tag st.areaID, st.areaID + 1,
            st.areaList ++ [currSegs]⟩)
    ∧ initState.areaID = 1 := by
  refine ⟨?_, ?_, rfl⟩
  · intro i hi m hm hlt hprev
    rw [discoverLoop, hsegs]
    dsimp only
    rw [if_neg (not_lt.mpr hnum), if_pos hstay,
      tryMergeAreas_found currSegs hne st.areaList i hi m hm hlt hprev]
  · intro hall
    rw [discoverLoop, hsegs]
    dsimp only
    rw [if_neg (not_lt.mpr hnum), if_pos hstay,
      tryMergeAreas_no_fit currSegs hne st.areaList hall]


/-- Witness for C5 at `interval = 180` and a cell with 21 events spaced
200 s apart (count 21 is at least 3600 / 180 = 20; 21 singleton segments
give stay time 3780 s greater than 3600 s); no area exists yet, so the cell
founds area 1 and the id counter moves to 2. -/
theorem C5_first_fit_witness :
    discoverLoop 180
        [("X", [0, 200, 400, 600, 800, 1000, 1200, 1400, 1600, 1800, 2000,
          2200, 2400, 2600, 2800, 3000, 3200, 3400, 3600, 3800, 4000])] initState =
      discoverLoop 180 []
        ⟨mapInsert initState.areaMap "X" initState.areaID, initState.areaID + 1,
          initState.areaList ++
            [[((0:Int), 0), (200, 200), (400, 400), (600, 600), (800, 800),
              (1000, 1000), (1200, 1200), (1400, 1400), (1600, 1600),
              (1800, 1800), (2000, 2000), (2200, 2200), (2400, 2400),
              (2600, 2600), (2800, 2800), (3000, 3000), (3200, 3200),
              (3400, 3400), (3600, 3600), (3800, 3800), (4000, 4000)]]⟩ :=
  ((C5_first_fit 180 "X"
      [0, 200, 400, 600, 800, 1000, 1200, 1400, 1600, 1800, 2000,
        2200, 2400, 2600, 2800, 3000, 3200, 3400, 3600, 3800, 4000] [] initState
      [((0:Int), 0), (200, 200), (400, 400), (600, 600), (800, 800),
        (1000, 1000), (1200, 1200), (1400, 1400), (1600, 1600),
        (1800, 1800), (2000, 2000), (2200, 2200), (2400, 2400),
        (2600, 2600), (2800, 2800), (3000, 3000), (3200, 3200),
        (3400, 3400), (3600, 3600), (3800, 3800), (4000, 4000)]
      (by decide) rfl (by decide) (by decide) (by decide)).2).1
    (by intro a ha; simp [initState] at ha)

end Movement
